import Mathlib

/-!
Verification of the multi-account routing and rate-limit-aware failover engine
of the anti-api repository, centred on
`src/services/antigravity/account-manager.ts` (the Account Manager) and the
Router's flow / account-routing execution.

Conventions of the shallow embedding:
* Epoch-millisecond timestamps are `Nat`; where the JavaScript source computes
  a possibly negative difference we compare in `Int`.
* `Map<string, Account>` becomes a `List Account` in insertion order
  (`Array.from(map.values())` is the list itself); lookup by id takes the
  first match, mirroring the unique-key discipline of the source `Map`.
* External collaborators (token refresh, project-id lookup, quota probe) are
  black-box parameters gathered in an `Env` record, matching the external
  interface contracts of the design (completion, refresh, quota probe).
  `JSON.parse` of an upstream error body is likewise abstracted: a `BodyText`
  carries the raw text together with the two JSON fields the classifier reads
  (`error.details[0].reason` and `error.message`, `none` when the parse fails
  or the field is absent or not a string).
* A JavaScript `TypeError` (reading a field of `undefined`) is modelled as
  `Except.error ()`; every other path is total.
-/

instance {ε α : Type} [DecidableEq ε] [DecidableEq α] : DecidableEq (Except ε α) :=
  fun a b =>
    match a, b with
    | .ok x, .ok y => decidable_of_iff (x = y) (by simp)
    | .error x, .error y => decidable_of_iff (x = y) (by simp)
    | .ok _, .error _ => .isFalse (by simp)
    | .error _, .ok _ => .isFalse (by simp)

/-- The closed set of normalized rate-limit reasons
(`RateLimitReason` in account-manager.ts). -/
inductive RateLimitReason where
  | quota_exhausted
  | rate_limit_exceeded
  | model_capacity_exhausted
  | server_error
  | unknown
deriving Repr, DecidableEq

/-- Substring test on character lists: does the second list occur
contiguously inside the first? (Backing for JavaScript
`String.prototype.includes`.) -/
def containsSub (pat : List Char) : List Char → Bool
  | [] => pat.isEmpty
  | c :: rest => pat.isPrefixOf (c :: rest) || containsSub pat rest

/-- JavaScript `text.toLowerCase().includes(pat)` for an already lowercase
pattern `pat` (character-list implementation so that concrete instances
evaluate in the kernel). -/
def lowerIncludes (text pat : String) : Bool :=
  containsSub pat.data (text.data.map Char.toLower)

/-- An upstream error body: the raw text plus the abstracted result of
`JSON.parse` on it.  `jsonDetailsReason` stands for
`JSON.parse(text)?.error?.details?.[0]?.reason` when that is a string and the
parse succeeds, `none` otherwise; `jsonMessage` likewise stands for
`JSON.parse(text)?.error?.message`. -/
structure BodyText where
  text : String
  jsonDetailsReason : Option String
  jsonMessage : Option String
deriving Repr, DecidableEq

/-- Whitespace trim at both ends, standing in for JavaScript
`String.prototype.trim` on the bodies at hand. -/
def trimChars (l : List Char) : List Char :=
  ((l.dropWhile Char.isWhitespace).reverse.dropWhile Char.isWhitespace).reverse

/-- Guard before attempting `JSON.parse` in `parseRateLimitReason`:
the trimmed body starts with a brace or a bracket. -/
def looksJson (s : String) : Bool :=
  match trimChars s.data with
  | c :: _ => c == '\x7b' || c == '['
  | [] => false

/-- The `error.message` substring cues inside the JSON branch of
`parseRateLimitReason` (account-manager.ts lines 43-49). -/
def msgHit (body : BodyText) : Option RateLimitReason :=
  match body.jsonMessage with
  | some msg =>
    if lowerIncludes msg "per minute" || lowerIncludes msg "rate limit" then
      some .rate_limit_exceeded
    else none
  | none => none

/-- The JSON branch of `parseRateLimitReason`
(account-manager.ts lines 32-53): recognized `error.details[0].reason`
enums first, then the `error.message` substring cues. -/
def jsonReasonHit (body : BodyText) : Option RateLimitReason :=
  if looksJson body.text then
    match body.jsonDetailsReason with
    | some r =>
      if r == "QUOTA_EXHAUSTED" then some .quota_exhausted
      else if r == "RATE_LIMIT_EXCEEDED" then some .rate_limit_exceeded
      else if r == "MODEL_CAPACITY_EXHAUSTED" then some .model_capacity_exhausted
      else msgHit body
    | none => msgHit body
  else none

/-- The case-insensitive raw-body substring fallback of
`parseRateLimitReason` (account-manager.ts lines 55-65). -/
def rawSearch (text : String) : RateLimitReason :=
  if lowerIncludes text "per minute" || lowerIncludes text "rate limit"
      || lowerIncludes text "too many requests" then
    .rate_limit_exceeded
  else if lowerIncludes text "model_capacity" || lowerIncludes text "capacity" then
    .model_capacity_exhausted
  else if lowerIncludes text "exhausted" || lowerIncludes text "quota" then
    .quota_exhausted
  else .unknown

/-- `parseRateLimitReason(statusCode, errorText)` of account-manager.ts
(lines 24-66). -/
def parseRateLimitReason (statusCode : Nat) (body : BodyText) : RateLimitReason :=
  if statusCode != 429 then
    if 500 ≤ statusCode then .server_error else .unknown
  else
    match jsonReasonHit body with
    | some r => r
    | none => rawSearch body.text

/-- The rate-limit reason classifier exactly as claim C4 words it: recognized
`error.details[0].reason` enums, otherwise directly the raw-body substring
search (the claim omits the `error.message` cue step the source performs
between the two). -/
def parseRateLimitReasonClaimed (statusCode : Nat) (body : BodyText) : RateLimitReason :=
  if statusCode != 429 then
    if 500 ≤ statusCode then .server_error else .unknown
  else if looksJson body.text && body.jsonDetailsReason == some "QUOTA_EXHAUSTED" then
    .quota_exhausted
  else if looksJson body.text && body.jsonDetailsReason == some "RATE_LIMIT_EXCEEDED" then
    .rate_limit_exceeded
  else if looksJson body.text && body.jsonDetailsReason == some "MODEL_CAPACITY_EXHAUSTED" then
    .model_capacity_exhausted
  else rawSearch body.text

/-- Claim C4 amended with the `error.message` cue step the source performs
after the `details` enums and before the raw-body fallback. -/
def parseRateLimitReasonAmended (statusCode : Nat) (body : BodyText) : RateLimitReason :=
  if statusCode != 429 then
    if 500 ≤ statusCode then .server_error else .unknown
  else if looksJson body.text && body.jsonDetailsReason == some "QUOTA_EXHAUSTED" then
    .quota_exhausted
  else if looksJson body.text && body.jsonDetailsReason == some "RATE_LIMIT_EXCEEDED" then
    .rate_limit_exceeded
  else if looksJson body.text && body.jsonDetailsReason == some "MODEL_CAPACITY_EXHAUSTED" then
    .model_capacity_exhausted
  else if looksJson body.text
      && (body.jsonMessage.any fun m =>
            lowerIncludes m "per minute" || lowerIncludes m "rate limit") then
    .rate_limit_exceeded
  else rawSearch body.text

/-- `defaultRateLimitMs(reason, failures)` of account-manager.ts
(lines 68-106). -/
def defaultRateLimitMs (reason : RateLimitReason) (failures : Nat) : Nat :=
  match reason with
  | .quota_exhausted =>
    if failures ≤ 1 then 60000
    else if failures == 2 then 300000
    else if failures == 3 then 1800000
    else 7200000
  | .rate_limit_exceeded => 30000
  | .model_capacity_exhausted => 15000
  | .server_error => 20000
  | .unknown => 60000

/-- An account of the antigravity pool (`Account` in account-manager.ts):
credential fields plus the runtime-only rate-limit fields. -/
structure Account where
  id : String
  email : String
  accessToken : String
  refreshToken : String
  expiresAt : Nat
  projectId : Option String
  rateLimitedUntil : Option Nat
  consecutiveFailures : Nat
deriving Repr, DecidableEq

instance : Inhabited Account :=
  ⟨⟨"", "", "", "", 0, none, none, 0⟩⟩

/-- `this.accounts.get(accountId)` over the insertion-ordered list. -/
def findAccount (accs : List Account) (accountId : String) : Option Account :=
  accs.find? fun a => a.id == accountId

/-- In-place mutation of the account stored under `accountId`. -/
def updateAccount (accs : List Account) (accountId : String) (f : Account → Account) :
    List Account :=
  accs.map fun a => if a.id == accountId then f a else a

/-- `AccountManager.markRateLimitedFromError` (account-manager.ts lines
316-358) as a pure state transformer.  `retryDelayMs` is the result of the
external `parseRetryDelay(errorText, retryAfterHeader)` (lib/retry.ts),
passed in abstractly: `none` means no explicit retry delay could be parsed.
Returns the new account list and the `{reason, durationMs}` result
(`none` when the account is unknown).  Note the source's bare-429 branch
returns before the `account.rateLimitedUntil` assignment: only
`consecutiveFailures` is persisted there. -/
def markRateLimitedFromError (accs : List Account) (accountId : String)
    (statusCode : Nat) (body : BodyText) (retryDelayMs : Option Nat) (now : Nat) :
    List Account × Option (RateLimitReason × Nat) :=
  match findAccount accs accountId with
  | none => (accs, none)
  | some account =>
    let reason := parseRateLimitReason statusCode body
    let failures := account.consecutiveFailures + 1
    match retryDelayMs with
    | some d =>
      let durationMs := max (d + 500) 2000
      (updateAccount accs accountId fun a =>
        { a with consecutiveFailures := a.consecutiveFailures + 1,
                 rateLimitedUntil := some (now + durationMs) },
       some (reason, durationMs))
    | none =>
      if statusCode == 429 then
        (updateAccount accs accountId fun a =>
          { a with consecutiveFailures := a.consecutiveFailures + 1 },
         some (.rate_limit_exceeded, 5000))
      else
        let durationMs := defaultRateLimitMs reason failures
        (updateAccount accs accountId fun a =>
          { a with consecutiveFailures := a.consecutiveFailures + 1,
                   rateLimitedUntil := some (now + durationMs) },
         some (reason, durationMs))

/-- `AccountManager.markSuccess` (account-manager.ts lines 363-369). -/
def markSuccess (accs : List Account) (accountId : String) : List Account :=
  updateAccount accs accountId fun a =>
    { a with rateLimitedUntil := none, consecutiveFailures := 0 }

/-- The credential projection `AccountManager.save` writes to disk for each
account (account-manager.ts lines 223-230): runtime fields are dropped. -/
structure PersistedAccount where
  id : String
  email : String
  accessToken : String
  refreshToken : String
  expiresAt : Nat
  projectId : Option String
deriving Repr, DecidableEq

/-- `AccountManager.save` (account-manager.ts lines 217-235): the account set
serialized to disk, credential fields only. -/
def saveAccounts (accs : List Account) : List PersistedAccount :=
  accs.map fun a =>
    ⟨a.id, a.email, a.accessToken, a.refreshToken, a.expiresAt, a.projectId⟩

/-- The per-account part of `AccountManager.load` (account-manager.ts lines
168-175): each persisted record is rehydrated with
`rateLimitedUntil = null` and `consecutiveFailures = 0`. -/
def loadAccounts (data : List PersistedAccount) : List Account :=
  data.map fun p =>
    ⟨p.id, p.email, p.accessToken, p.refreshToken, p.expiresAt, p.projectId, none, 0⟩

/-- One model's quota entry as reported by the quota probe
(`fetchAntigravityModels` result): the optional remaining fraction and the
reset time already parsed to epoch milliseconds (`none` stands for an absent
or unparseable time, absorbing `Date.parse` / `Number.isFinite`). -/
structure ModelQuota where
  remainingFraction : Option ℚ
  resetTime : Option Nat
deriving Repr, DecidableEq

/-- The quota probe result (`fetchAntigravityModels(accessToken, projectId)`):
a map from model id to its quota entry, plus an optional project id. -/
structure ProbeResult where
  models : List (String × ModelQuota)
  projectId : Option String
deriving Repr, DecidableEq

/-- Modelled from the spec: `pickResetTime` lives in
`src/services/antigravity/quota-fetch.ts`, which is not under src/ (only its
tests are).  Per the spec's reset-time bookkeeping and the quota-fetch tests,
without a model argument it picks the earliest valid reset time across the
reported models (invalid times are already `none` here). -/
def pickResetTime (models : List (String × ModelQuota)) : Option Nat :=
  models.foldl
    (fun acc m =>
      match acc, m.2.resetTime with
      | none, r => r
      | some x, some y => some (min x y)
      | some x, none => some x)
    none

/-- External collaborators of `getNextAvailableAccount`, abstracted per the
design's external interface contracts, plus the wall-clock readings the
source takes at its three `Date.now()` call sites:
* `now`: the reading bound at entry (line 385), used throughout the scan;
* `selectNow`: the reading taken when recording `lastUsedAccount` (line 473);
* `recheckNow`: the reading taken after the 500 ms wait (line 503);
* `refresh`: `refreshAccessToken(refreshToken)`, `none` when it throws;
* `getProj`: `getProjectID(accessToken)`; per the spec's `ensureProjectId`
  contract a failed upstream lookup yields the placeholder, so failure and a
  null result are both `none`;
* `mockProj`: `generateMockProjectId()`;
* `probe`: `fetchAntigravityModels(accessToken, _)`, `none` when it throws. -/
structure Env where
  now : Nat
  selectNow : Nat
  recheckNow : Nat
  refresh : String → Option (String × Nat)
  getProj : String → Option String
  mockProj : String
  probe : String → Option ProbeResult

/-- The in-memory state of the `AccountManager` singleton relevant to
selection: the account pool in insertion order, the rotation cursor
`currentIndex`, and the 60-second sticky record `lastUsedAccount`. -/
structure MgrSt where
  accounts : List Account
  currentIndex : Nat
  lastUsedAccount : Option (String × Nat)
deriving Repr

/-- The credential record `getNextAvailableAccount` hands back. -/
structure Cred where
  accessToken : String
  projectId : String
  email : String
  accountId : String
deriving Repr, DecidableEq

/-- `account.expiresAt > 0 && now > account.expiresAt - 5 * 60 * 1000`
(the token-near-expiry test, compared in `Int` as JavaScript would). -/
def tokenNeedsRefresh (a : Account) (now : Nat) : Bool :=
  0 < a.expiresAt && (a.expiresAt : Int) - 5 * 60 * 1000 < (now : Int)

/-- `AccountManager.ensureProjectId` (account-manager.ts lines 695-719):
returns the cached project id unless it is missing, empty or `"unknown"`;
otherwise resolves it via `getProjectID`, falling back to the generated
placeholder, and caches the result on the account. -/
def ensureProjectId (env : Env) (a : Account) : String × Account :=
  match a.projectId with
  | some p =>
    if p != "" && p != "unknown" then (p, a)
    else
      match env.getProj a.accessToken with
      | some q =>
        if q != "" then (q, { a with projectId := some q })
        else (env.mockProj, { a with projectId := some env.mockProj })
      | none => (env.mockProj, { a with projectId := some env.mockProj })
  | none =>
    match env.getProj a.accessToken with
    | some q =>
      if q != "" then (q, { a with projectId := some q })
      else (env.mockProj, { a with projectId := some env.mockProj })
    | none => (env.mockProj, { a with projectId := some env.mockProj })

/-- `acc.projectId || "unknown"` (the credential built without
`ensureProjectId` in the all-exhausted branches). -/
def projOrUnknown (p : Option String) : String :=
  match p with
  | some q => if q != "" then q else "unknown"
  | none => "unknown"

/-- The 60-second sticky-window reuse path of `getNextAvailableAccount`
(account-manager.ts lines 394-421): when the last used account was selected
less than 60 s ago and is not currently rate-limited, reuse it (refreshing
its token when near expiry; a failed refresh keeps the possibly expired
token).  `none` means the path falls through to the rotation scan.
`lastUsedAccount` is not touched on this path. -/
def stickyReuse (env : Env) (st : MgrSt) : Option (MgrSt × Cred) :=
  match st.lastUsedAccount with
  | none => none
  | some (accountId, ts) =>
    if (env.now : Int) - (ts : Int) < 60000 then
      match findAccount st.accounts accountId with
      | none => none
      | some la =>
        if la.rateLimitedUntil.all (· ≤ env.now) then
          let la1 :=
            if tokenNeedsRefresh la env.now then
              match env.refresh la.refreshToken with
              | some (tok, expiresIn) =>
                { la with accessToken := tok, expiresAt := env.now + expiresIn * 1000 }
              | none => la
            else la
          let pr := ensureProjectId env la1
          some ({ st with accounts := updateAccount st.accounts accountId fun _ => pr.2 },
                ⟨pr.2.accessToken, pr.1, pr.2.email, pr.2.id⟩)
        else none
    else none

/-- The rotation scan loop of `getNextAvailableAccount` (account-manager.ts
lines 424-481).  `remaining` is `accountList.length - attempts`; `isFirst`
records `attempts == 0` (the cursor only advances when `forceRotate` or a
previous attempt happened).  `Except.error ()` models the `TypeError` thrown
when `accountList[this.currentIndex]` is `undefined` (a stale cursor after
account removal).  On success returns the (possibly token-refreshed) chosen
account; `none` means every account was skipped. -/
def rotLoop (env : Env) (forceRotate : Bool) :
    Nat → List Account → Nat → Bool → Except Unit (List Account × Nat × Option Account)
  | 0, accs, cur, _ => .ok (accs, cur, none)
  | remaining + 1, accs, cur, isFirst =>
    let cur1 := if forceRotate || !isFirst then (cur + 1) % accs.length else cur
    match accs[cur1]? with
    | none => .error ()
    | some a =>
      if a.rateLimitedUntil.any (env.now < ·) then
        rotLoop env forceRotate remaining accs cur1 false
      else if tokenNeedsRefresh a env.now then
        match env.refresh a.refreshToken with
        | none =>
          rotLoop env forceRotate remaining
            (accs.set cur1 { a with rateLimitedUntil := some (env.now + 60000) }) cur1 false
        | some (tok, expiresIn) =>
          let a1 := { a with accessToken := tok, expiresAt := env.now + expiresIn * 1000 }
          let a2 :=
            if a1.projectId.all (· == "") then { a1 with projectId := env.getProj tok }
            else a1
          .ok (accs.set cur1 a2, cur1, some a2)
      else .ok (accs, cur1, some a)

/-- The min-wait scan over an all-rate-limited pool (account-manager.ts lines
484-497): returns `bestAccount` and `minWaitMs`.  An account whose
`rateLimitedUntil` is `null` (or the falsy `0`) short-circuits with a zero
wait. -/
def scanMinWait (now : Nat) : List Account → Account → Option Nat → Account × Option Nat
  | [], b, mw => (b, mw)
  | a :: rest, b, mw =>
    if a.rateLimitedUntil.getD 0 == 0 then (a, some 0)
    else
      match mw with
      | none => scanMinWait now rest a (some (a.rateLimitedUntil.getD 0 - now))
      | some m =>
        if a.rateLimitedUntil.getD 0 - now < m then
          scanMinWait now rest a (some (a.rateLimitedUntil.getD 0 - now))
        else scanMinWait now rest b (some m)

/-- The real-time quota-validation loop (account-manager.ts lines 533-569):
probe each account; a thrown probe is caught and skipped; the first account
showing a positive remaining fraction for any model is cleared and returned;
otherwise the account's lock time is updated to the reported reset time plus
the 2 s buffer whenever that differs from the current value. -/
def quotaLoop (env : Env) : List Account → List Account × Option Cred
  | [] => ([], none)
  | a :: rest =>
    match env.probe a.accessToken with
    | none =>
      let r := quotaLoop env rest
      (a :: r.1, r.2)
    | some res =>
      if res.models.any (fun m => 0 < m.2.remainingFraction.getD 0) then
        let a1 := { a with rateLimitedUntil := none, consecutiveFailures := 0 }
        let pr := ensureProjectId env a1
        (pr.2 :: rest, some ⟨pr.2.accessToken, pr.1, pr.2.email, pr.2.id⟩)
      else
        let a1 :=
          match pickResetTime res.models with
          | some rt =>
            if a.rateLimitedUntil != some (rt + 2000) then
              { a with rateLimitedUntil := some (rt + 2000) }
            else a
          | none => a
        let r := quotaLoop env rest
        (a1 :: r.1, r.2)

/-- The all-accounts-rate-limited tail of `getNextAvailableAccount`
(account-manager.ts lines 483-574): compute the minimum wait; if it is at
most 2 s, wait 500 ms, recheck at `recheckNow` and either return a
meanwhile-freed account or perform the optimistic reset (clear every
account's rate-limit fields) and return the best account; if it exceeds 2 s,
run the quota-validation loop and return its outcome (`none` when no account
shows available quota). -/
def allLimited (env : Env) (st : MgrSt) : Except Unit (MgrSt × Option Cred) :=
  match (scanMinWait env.now st.accounts (st.accounts.head?.getD default) none).2 with
  | some m =>
    if m ≤ 2000 then
      match st.accounts.find? (fun a => a.rateLimitedUntil.all (· ≤ env.recheckNow)) with
      | some refreshed =>
        .ok (st, some ⟨refreshed.accessToken, projOrUnknown refreshed.projectId,
                       refreshed.email, refreshed.id⟩)
      | none =>
        .ok ({ st with accounts := st.accounts.map fun a =>
                { a with rateLimitedUntil := none, consecutiveFailures := 0 } },
             some ⟨(scanMinWait env.now st.accounts
                      (st.accounts.head?.getD default) none).1.accessToken,
                   projOrUnknown (scanMinWait env.now st.accounts
                      (st.accounts.head?.getD default) none).1.projectId,
                   (scanMinWait env.now st.accounts
                      (st.accounts.head?.getD default) none).1.email,
                   (scanMinWait env.now st.accounts
                      (st.accounts.head?.getD default) none).1.id⟩)
    else
      .ok ({ st with accounts := (quotaLoop env st.accounts).1 },
           (quotaLoop env st.accounts).2)
  | none => .ok (st, none)

/-- The rotation scan plus all-exhausted handling: everything of
`getNextAvailableAccount` after the sticky-window path.  A successful scan
records `lastUsedAccount := (account.id, selectNow)` before building the
credential via `ensureProjectId`. -/
def rotateScan (env : Env) (st : MgrSt) (forceRotate : Bool) :
    Except Unit (MgrSt × Option Cred) :=
  match rotLoop env forceRotate st.accounts.length st.accounts st.currentIndex true with
  | .error _ => .error ()
  | .ok (accs1, cur1, some a) =>
    let pr := ensureProjectId env a
    .ok ({ accounts := updateAccount accs1 a.id fun _ => pr.2,
           currentIndex := cur1,
           lastUsedAccount := some (a.id, env.selectNow) },
         some ⟨pr.2.accessToken, pr.1, pr.2.email, pr.2.id⟩)
  | .ok (accs1, cur1, none) =>
    allLimited env { st with accounts := accs1, currentIndex := cur1 }

/-- `AccountManager.getNextAvailableAccount(forceRotate)` (account-manager.ts
lines 375-575), over an already-loaded manager state: empty pool returns
`null`; otherwise the sticky-window reuse path, then the rotation scan with
its all-exhausted fallbacks. -/
def getNextAvailableAccount (env : Env) (st : MgrSt) (forceRotate : Bool) :
    Except Unit (MgrSt × Option Cred) :=
  if st.accounts.isEmpty then .ok (st, none)
  else
    match (if forceRotate then none else stickyReuse env st) with
    | some (st1, cred) => .ok (st1, some cred)
    | none => rotateScan env st forceRotate

/-- One entry of a routing chain: the account to use and the model to
request (provider fixed to the primary one here, display label elided). -/
structure FlowEntry where
  accountId : String
  modelId : String
deriving Repr, DecidableEq

/-- Modelled from the spec: the Router's failure-classification gate
(`src/services/routing/router.ts` is not under src/; only its tests are).
Per the error-handling design, 429 and 5xx responses are rate-limit-class
and retryable by rotation, while 403, 404 and the other non-rate 4xx are
hard errors that propagate immediately. -/
def isHardStatus (status : Nat) : Bool :=
  !(status == 429 || 500 ≤ status)

/-- Outcome of scanning a flow's entries from the start index: a success
(with the attempted account ids, the number of rate-limit bookkeeping calls,
and the new sticky position), a hard error to propagate, or an exhausted
scan. -/
inductive ScanOut where
  | success (attempts : List String) (marks : Nat) (stickyIdx : Nat) (stickyAccount : String)
  | hard (attempts : List String) (marks : Nat) (status : Nat) (body : String)
  | exhausted (attempts : List String) (marks : Nat)
deriving Repr, DecidableEq

/-- Record one attempted entry that failed with a rate-limit-class error in
front of a scan outcome: the attempt is prepended and one
`markRateLimitedFromError` call is added. -/
def addAttemptMark (accountId : String) : ScanOut → ScanOut
  | .success att m i aid => .success (accountId :: att) (m + 1) i aid
  | .hard att m s b => .hard (accountId :: att) (m + 1) s b
  | .exhausted att m => .exhausted (accountId :: att) (m + 1)

/-- Modelled from the spec: the Router's in-order scan of a flow's entries
starting at index `i` (router.ts is not under src/).  A known-exhausted
account (per the account manager's `isAccountRateLimited`, abstracted as
`isRL`) is skipped without an upstream attempt; a success stops the scan and
becomes the sticky position; a rate-limit-class failure is recorded
(`markRateLimitedFromError`) and the scan advances; a hard error stops the
scan and propagates. -/
def scanFrom (complete : String → Except (Nat × String) Unit) (isRL : String → Bool) :
    Nat → List FlowEntry → ScanOut
  | _, [] => .exhausted [] 0
  | i, e :: rest =>
    if isRL e.accountId then scanFrom complete isRL (i + 1) rest
    else
      match complete e.accountId with
      | .ok _ => .success [e.accountId] 0 i e.accountId
      | .error (s, b) =>
        if isHardStatus s then .hard [e.accountId] 0 s b
        else addAttemptMark e.accountId (scanFrom complete isRL (i + 1) rest)

/-- The observable outcome of executing one routing chain: the upstream
attempts in order (by account id), the number of rate-limit bookkeeping
calls, the final result (success or the propagated/last error's status and
body), and the sticky cursor after the call. -/
structure ChainRun where
  attempts : List String
  markCalls : Nat
  result : Except (Nat × String) Unit
  newSticky : Option (Nat × String)
deriving Repr, DecidableEq

/-- Modelled from the spec: one flow execution with the sticky-head
optimization (router.ts is not under src/).  Start at the sticky index when
one exists and its account is not known-exhausted, else at 0; scan forward;
on an exhausted scan fall back to the flow's raw positional cursor for one
more attempt before failing (the flow-sticky tests in the repository pin
this behaviour: an all-known-exhausted chain still attempts the cursor
entry).  The empty-chain error pair is a placeholder: a chain is validated
non-empty upstream. -/
def stickyStart (isRL : String → Bool) (sticky : Option (Nat × String)) : Nat :=
  match sticky with
  | some (i, aid) => if isRL aid then 0 else i
  | none => 0

def runFlow (complete : String → Except (Nat × String) Unit) (isRL : String → Bool)
    (entries : List FlowEntry) (sticky : Option (Nat × String)) (cursor : Nat) :
    ChainRun :=
  match scanFrom complete isRL (stickyStart isRL sticky)
      (entries.drop (stickyStart isRL sticky)) with
  | .success att m i aid => ⟨att, m, .ok (), some (i, aid)⟩
  | .hard att m s b => ⟨att, m, .error (s, b), sticky⟩
  | .exhausted att m =>
    match entries[cursor % entries.length]? with
    | none => ⟨att, m, .error (599, ""), sticky⟩
    | some e =>
      match complete e.accountId with
      | .ok _ => ⟨att ++ [e.accountId], m, .ok (), some (cursor % entries.length, e.accountId)⟩
      | .error (s, b) =>
        if isHardStatus s then ⟨att ++ [e.accountId], m, .error (s, b), sticky⟩
        else ⟨att ++ [e.accountId], m + 1, .error (s, b), sticky⟩

/-- Modelled from the spec: account-routing execution (router.ts is not
under src/).  The chain of accounts for a canonical model is tried strictly
in order with no stickiness layer; the same failure-classification gate
applies, and when every candidate fails the last attempt's status and body
are preserved.  The empty-chain error pair is again a placeholder. -/
def runAccountRoute (complete : String → Except (Nat × String) Unit) :
    List FlowEntry → ChainRun
  | [] => ⟨[], 0, .error (599, ""), none⟩
  | e :: rest =>
    match complete e.accountId with
    | .ok _ => ⟨[e.accountId], 0, .ok (), none⟩
    | .error (s, b) =>
      if isHardStatus s then ⟨[e.accountId], 0, .error (s, b), none⟩
      else
        match rest with
        | [] => ⟨[e.accountId], 1, .error (s, b), none⟩
        | _ :: _ =>
          let r := runAccountRoute complete rest
          ⟨e.accountId :: r.attempts, r.markCalls + 1, r.result, none⟩

/-! Helper lemmas. -/

theorem findAccount_updateAccount (accs : List Account) (accountId : String)
    (f : Account → Account) (hf : ∀ x, (f x).id = x.id) :
    findAccount (updateAccount accs accountId f) accountId =
      (findAccount accs accountId).map f := by
  induction accs with
  | nil => rfl
  | cons a rest ih =>
    by_cases hid : a.id == accountId
    · have hfid : (f a).id == accountId := by rw [hf a]; exact hid
      simp [findAccount, updateAccount, List.find?, hid, hfid] at *
    · simp only [findAccount, updateAccount, List.map_cons, if_neg hid] at *
      rw [List.find?_cons_of_neg _ (by simpa using hid),
          List.find?_cons_of_neg _ (by simpa using hid)]
      exact ih

theorem ensureProjectId_id (env : Env) (a : Account) :
    (ensureProjectId env a).2.id = a.id := by
  unfold ensureProjectId
  rcases a.projectId with _ | p <;>
      rcases hg : env.getProj a.accessToken with _ | q <;> simp only [hg] <;>
      (try split) <;> (try split) <;> rfl

/-! Theorems settling the claims. -/

/-- C9: saving the account set and loading it back reproduces every account
with identical credential fields (id, email, accessToken, refreshToken,
expiresAt, projectId) and the runtime fields reset to neutral
(`rateLimitedUntil = none`, `consecutiveFailures = 0`). -/
theorem save_load_roundtrip (accs : List Account) :
    loadAccounts (saveAccounts accs) =
      accs.map fun a => { a with rateLimitedUntil := none, consecutiveFailures := 0 } := by
  induction accs with
  | nil => rfl
  | cons a rest ih => simp [loadAccounts, saveAccounts]

/-- C3: for every consecutive-failures count at least 1, the default backoff
is 60 s / 5 min / 30 min / 2 h for `quota_exhausted` at failure counts
1 / 2 / 3 / at-least-4, and a fixed 30 s / 15 s / 20 s / 60 s for
`rate_limit_exceeded` / `model_capacity_exhausted` / `server_error` /
`unknown` independently of the count. -/
theorem defaultRateLimitMs_backoff_table (n : Nat) (h : 1 ≤ n) :
    (n ≤ 1 → defaultRateLimitMs .quota_exhausted n = 60000) ∧
    (n = 2 → defaultRateLimitMs .quota_exhausted n = 300000) ∧
    (n = 3 → defaultRateLimitMs .quota_exhausted n = 1800000) ∧
    (4 ≤ n → defaultRateLimitMs .quota_exhausted n = 7200000) ∧
    defaultRateLimitMs .rate_limit_exceeded n = 30000 ∧
    defaultRateLimitMs .model_capacity_exhausted n = 15000 ∧
    defaultRateLimitMs .server_error n = 20000 ∧
    defaultRateLimitMs .unknown n = 60000 := by
  refine ⟨fun h1 => ?_, fun h2 => ?_, fun h3 => ?_, fun h4 => ?_, rfl, rfl, rfl, rfl⟩
  · simp [defaultRateLimitMs, h1]
  · subst h2; rfl
  · subst h3; rfl
  · simp only [defaultRateLimitMs]
    rw [if_neg (by omega), if_neg (by simp; omega), if_neg (by simp; omega)]

/-- Witness for C3 at failure count 4. -/
theorem defaultRateLimitMs_backoff_table_witness :
    1 ≤ 4 ∧ defaultRateLimitMs .quota_exhausted 4 = 7200000 :=
  ⟨by decide, (defaultRateLimitMs_backoff_table 4 (by decide)).2.2.2.1 (by decide)⟩

/-- C2: for a known account, a 429 with no parsable retry delay makes
`markRateLimitedFromError` return `{rate_limit_exceeded, 5000}` and increment
`consecutiveFailures`, but the account's `rateLimitedUntil` stays unchanged
(`none` here, not `now + 5000`): the computed lock time is stored in a dead
local and the early `return` skips the persisting assignment, contradicting
the claim (and the spec's persist contract, and the source's own intent). -/
theorem bare429_backoff_not_persisted :
    (markRateLimitedFromError [⟨"a1", "e", "tok", "r", 0, none, none, 0⟩] "a1" 429
        ⟨"", none, none⟩ none 1000).2 = some (.rate_limit_exceeded, 5000) ∧
    (markRateLimitedFromError [⟨"a1", "e", "tok", "r", 0, none, none, 0⟩] "a1" 429
        ⟨"", none, none⟩ none 1000).1 =
      [⟨"a1", "e", "tok", "r", 0, none, none, 1⟩] := by
  decide

/-- C8 counterexample: an account locked until epoch 10 000 000 receives a
429 carrying an explicit zero retry delay at `now = 1000`;
`markRateLimitedFromError` overwrites `rateLimitedUntil` with
`1000 + max 500 2000 = 3000`, an earlier instant, refuting the
never-decreased invariant. -/
theorem rateLimitedUntil_decreases_cex :
    (markRateLimitedFromError [⟨"a1", "e", "tok", "r", 0, none, some 10000000, 0⟩] "a1" 429
        ⟨"", none, none⟩ (some 0) 1000).1 =
      [⟨"a1", "e", "tok", "r", 0, none, some 3000, 1⟩] ∧ (3000 : Nat) < 10000000 := by
  decide

/-- C8 (amended): `markRateLimitedFromError` computes the new
`rateLimitedUntil` solely from the error and the clock, with no lower bound
from the current value — explicit retry delay: `now + max (delay+500) 2000`;
bare 429 without delay: unchanged; otherwise `now + defaultRateLimitMs` —
so a later call can move the expiry earlier. -/
theorem markRateLimitedFromError_overwrites_until
    (accs : List Account) (accountId : String) (statusCode : Nat) (body : BodyText)
    (retryDelayMs : Option Nat) (now : Nat) (a : Account)
    (h : findAccount accs accountId = some a) :
    findAccount (markRateLimitedFromError accs accountId statusCode body
        retryDelayMs now).1 accountId =
      some { a with
        consecutiveFailures := a.consecutiveFailures + 1,
        rateLimitedUntil :=
          match retryDelayMs with
          | some d => some (now + max (d + 500) 2000)
          | none =>
            if statusCode == 429 then a.rateLimitedUntil
            else some (now + defaultRateLimitMs (parseRateLimitReason statusCode body)
                (a.consecutiveFailures + 1)) } := by
  unfold markRateLimitedFromError
  rw [h]
  rcases retryDelayMs with _ | d
  · by_cases h429 : statusCode == 429
    · have hupd := findAccount_updateAccount accs accountId
        (fun x => { x with consecutiveFailures := x.consecutiveFailures + 1 })
        (fun x => rfl)
      simp only [h429, if_pos, hupd, h]
      rfl
    · have hupd := findAccount_updateAccount accs accountId
        (fun x => { x with
          consecutiveFailures := x.consecutiveFailures + 1,
          rateLimitedUntil := some (now + defaultRateLimitMs
            (parseRateLimitReason statusCode body) (a.consecutiveFailures + 1)) })
        (fun x => rfl)
      simp only [h429, Bool.false_eq_true, if_false, hupd, h]
      rfl
  · have hupd := findAccount_updateAccount accs accountId
      (fun x => { x with
        consecutiveFailures := x.consecutiveFailures + 1,
        rateLimitedUntil := some (now + max (d + 500) 2000) })
      (fun x => rfl)
    simp only [hupd, h]
    rfl

/-- Witness for C8's amended theorem: a 500-class error at `now = 1000` on a
fresh account sets `rateLimitedUntil` to `1000 + 20000`. -/
theorem markRateLimitedFromError_overwrites_until_witness :
    findAccount (markRateLimitedFromError [⟨"a1", "e", "tok", "r", 0, none, none, 0⟩] "a1"
        500 ⟨"boom", none, none⟩ none 1000).1 "a1" =
      some ⟨"a1", "e", "tok", "r", 0, none, some 21000, 1⟩ :=
  (markRateLimitedFromError_overwrites_until [⟨"a1", "e", "tok", "r", 0, none, none, 0⟩]
      "a1" 500 ⟨"boom", none, none⟩ none 1000 _ rfl).trans (by decide)

/-- C4 counterexample: the 429 body
`\x7b"error":\x7b"message":"rate limit"\x7d\x7d` (a JSON escape hides
the space from the raw text) has no recognized `details` reason, so the
claim's rule falls to the raw substring search and yields `unknown`; the
source first checks the decoded `error.message` for rate-limit cues and
returns `rate_limit_exceeded`. -/
theorem parse_reason_claim_cex :
    parseRateLimitReason 429
        ⟨"\x7b\"error\":\x7b\"message\":\"rate\\u0020limit\"\x7d\x7d", none,
          some "rate limit"⟩ = .rate_limit_exceeded ∧
    parseRateLimitReasonClaimed 429
        ⟨"\x7b\"error\":\x7b\"message\":\"rate\\u0020limit\"\x7d\x7d", none,
          some "rate limit"⟩ = .unknown := by
  decide

/-- C4 (amended): the classifier is exactly the claim's rule with one extra
step — for a 429 JSON body without a recognized `error.details[0].reason`,
an `error.message` containing `per minute` or `rate limit`
(case-insensitively) yields `rate_limit_exceeded` before the raw-body
substring fallback. -/
theorem parse_reason_matches_amended (statusCode : Nat) (body : BodyText) :
    parseRateLimitReason statusCode body = parseRateLimitReasonAmended statusCode body := by
  obtain ⟨text, jdr, jmsg⟩ := body
  unfold parseRateLimitReason parseRateLimitReasonAmended jsonReasonHit msgHit
  by_cases h429 : statusCode != 429
  · simp [h429]
  · simp only [h429, Bool.false_eq_true, if_false]
    cases hj : looksJson text
    · simp
    · simp only [Bool.true_and]
      rcases jdr with _ | r
      · rcases jmsg with _ | m
        · simp
        · simp only [Option.any_some]
          by_cases hcue : (lowerIncludes m "per minute" || lowerIncludes m "rate limit") = true <;>
            simp [hcue]
      · by_cases h1 : r = "QUOTA_EXHAUSTED"
        · simp [h1]
        · by_cases h2 : r = "RATE_LIMIT_EXCEEDED"
          · simp [h1, h2]
          · by_cases h3 : r = "MODEL_CAPACITY_EXHAUSTED"
            · simp [h1, h2, h3]
            · rcases jmsg with _ | m
              · simp [h1, h2, h3]
              · simp only [Option.any_some, h1, h2, h3, beq_iff_eq, Option.some.injEq,
                  if_false]
                by_cases hcue :
                    (lowerIncludes m "per minute" || lowerIncludes m "rate limit") = true <;>
                  simp [hcue, h1, h2, h3]
theorem scanFrom_all_hard (complete : String → Except (Nat × String) Unit)
    (isRL : String → Bool) (s : Nat) (b : String)
    (hc : ∀ aid, complete aid = .error (s, b)) (hh : isHardStatus s = true) :
    ∀ (l : List FlowEntry) (i : Nat),
      scanFrom complete isRL i l = .exhausted [] 0 ∨
      ∃ aid, scanFrom complete isRL i l = .hard [aid] 0 s b := by
  intro l
  induction l with
  | nil => intro i; left; rfl
  | cons e rest ih =>
    intro i
    by_cases hrl : isRL e.accountId
    · simpa [scanFrom, hrl] using ih (i + 1)
    · right
      exact ⟨e.accountId, by simp [scanFrom, hrl, hc, hh]⟩

/-- C1: when the upstream completion call fails with HTTP 404 or 403, both a
flow chain and an account-routing chain make exactly one upstream attempt,
perform no rate-limit bookkeeping (zero `markRateLimitedFromError` calls),
do not advance the chain (the flow's sticky cursor is unchanged), and the
error surfaced to the caller carries the original upstream status and
body. -/
theorem hard_error_single_attempt
    (complete : String → Except (Nat × String) Unit) (isRL : String → Bool)
    (entries : List FlowEntry) (sticky : Option (Nat × String)) (cursor : Nat)
    (s : Nat) (b : String)
    (hc : ∀ aid, complete aid = .error (s, b))
    (hs : s = 404 ∨ s = 403) (hne : entries ≠ []) :
    ((runFlow complete isRL entries sticky cursor).attempts.length = 1 ∧
      (runFlow complete isRL entries sticky cursor).markCalls = 0 ∧
      (runFlow complete isRL entries sticky cursor).result = .error (s, b) ∧
      (runFlow complete isRL entries sticky cursor).newSticky = sticky) ∧
    ((runAccountRoute complete entries).attempts.length = 1 ∧
      (runAccountRoute complete entries).markCalls = 0 ∧
      (runAccountRoute complete entries).result = .error (s, b)) := by
  have hh : isHardStatus s = true := by rcases hs with h | h <;> subst h <;> decide
  constructor
  · have hlen : 0 < entries.length := List.length_pos.mpr hne
    have hcm : cursor % entries.length < entries.length := Nat.mod_lt _ hlen
    have hget : entries[cursor % entries.length]? =
        some entries[cursor % entries.length] := List.getElem?_eq_getElem hcm
    unfold runFlow
    rcases scanFrom_all_hard complete isRL s b hc hh
        (entries.drop (stickyStart isRL sticky)) (stickyStart isRL sticky) with
      hex | ⟨aid, hhard⟩
    · rw [hex]
      simp [hget, hc, hh]
    · rw [hhard]
      simp
  · rcases entries with _ | ⟨e, rest⟩
    · exact absurd rfl hne
    · simp [runAccountRoute, hc, hh]

/-- Witness for C1: a single-entry chain whose completion always fails with
404 yields one attempt, zero bookkeeping calls and the original error on
both execution paths. -/
theorem hard_error_single_attempt_witness :
    ((runFlow (fun _ => .error (404, "not found")) (fun _ => false)
        [⟨"acc-1", "claude-opus"⟩] none 0).attempts.length = 1 ∧
      (runFlow (fun _ => .error (404, "not found")) (fun _ => false)
        [⟨"acc-1", "claude-opus"⟩] none 0).markCalls = 0 ∧
      (runFlow (fun _ => .error (404, "not found")) (fun _ => false)
        [⟨"acc-1", "claude-opus"⟩] none 0).result = .error (404, "not found") ∧
      (runFlow (fun _ => .error (404, "not found")) (fun _ => false)
        [⟨"acc-1", "claude-opus"⟩] none 0).newSticky = none) ∧
    ((runAccountRoute (fun _ => .error (404, "not found"))
        [⟨"acc-1", "claude-opus"⟩]).attempts.length = 1 ∧
      (runAccountRoute (fun _ => .error (404, "not found"))
        [⟨"acc-1", "claude-opus"⟩]).markCalls = 0 ∧
      (runAccountRoute (fun _ => .error (404, "not found"))
        [⟨"acc-1", "claude-opus"⟩]).result = .error (404, "not found")) :=
  hard_error_single_attempt (fun _ => .error (404, "not found")) (fun _ => false)
    [⟨"acc-1", "claude-opus"⟩] none 0 404 "not found" (fun _ => rfl) (Or.inl rfl)
    (by simp)

/-- C7: in a 3-entry flow whose head entry always fails with a
quota-exhausted-classified 429 and whose second entry succeeds, the first
call attempts entries 0 then 1 (one bookkeeping call) and records sticky
position 1; a second call with that sticky cursor attempts only entry 1 and
never re-probes entry 0. -/
theorem flow_sticky_skips_exhausted_head
    (complete : String → Except (Nat × String) Unit) (isRL : String → Bool)
    (e0 e1 e2 : FlowEntry) (body : BodyText)
    (h0 : complete e0.accountId = .error (429, body.text))
    (_hq : parseRateLimitReason 429 body = .quota_exhausted)
    (h1 : complete e1.accountId = .ok ())
    (hrl : ∀ aid, isRL aid = false) :
    runFlow complete isRL [e0, e1, e2] none 0 =
      ⟨[e0.accountId, e1.accountId], 1, .ok (), some (1, e1.accountId)⟩ ∧
    runFlow complete isRL [e0, e1, e2] (some (1, e1.accountId)) 0 =
      ⟨[e1.accountId], 0, .ok (), some (1, e1.accountId)⟩ := by
  constructor
  · simp [runFlow, stickyStart, scanFrom, addAttemptMark, hrl, h0, h1, isHardStatus]
  · simp [runFlow, stickyStart, scanFrom, hrl, h1]

/-- Witness for C7 with concrete entries, a concrete quota-exhausted body
and a completion function failing exactly on the head account. -/
theorem flow_sticky_skips_exhausted_head_witness :
    parseRateLimitReason 429 ⟨"Quota exhausted", none, none⟩ = .quota_exhausted ∧
    runFlow (fun aid => if aid == "a0" then .error (429, "Quota exhausted") else .ok ())
        (fun _ => false) [⟨"a0", "m"⟩, ⟨"a1", "m"⟩, ⟨"a2", "m"⟩] none 0 =
      ⟨["a0", "a1"], 1, .ok (), some (1, "a1")⟩ ∧
    runFlow (fun aid => if aid == "a0" then .error (429, "Quota exhausted") else .ok ())
        (fun _ => false) [⟨"a0", "m"⟩, ⟨"a1", "m"⟩, ⟨"a2", "m"⟩] (some (1, "a1")) 0 =
      ⟨["a1"], 0, .ok (), some (1, "a1")⟩ :=
  ⟨by decide,
   flow_sticky_skips_exhausted_head
     (fun aid => if aid == "a0" then .error (429, "Quota exhausted") else .ok ())
     (fun _ => false) ⟨"a0", "m"⟩ ⟨"a1", "m"⟩ ⟨"a2", "m"⟩
     ⟨"Quota exhausted", none, none⟩ rfl (by decide) rfl (fun _ => rfl)⟩

theorem stickyReuse_none_of_all_limited (env : Env) (st : MgrSt)
    (hlim : ∀ a ∈ st.accounts, ∃ u, a.rateLimitedUntil = some u ∧ env.now < u) :
    stickyReuse env st = none := by
  obtain ⟨accs, ci, lu⟩ := st
  unfold stickyReuse
  rcases lu with _ | ⟨aid, ts⟩
  · rfl
  · simp only
    split
    · rcases hfa : findAccount accs aid with _ | la
      · rfl
      · have hmem : la ∈ accs := List.mem_of_find?_eq_some hfa
        obtain ⟨u, hu, hnu⟩ := hlim la hmem
        have hle : ¬u ≤ env.now := by omega
        simp [hu, hle]
    · rfl

theorem rotLoop_all_limited (env : Env) (fr : Bool) :
    ∀ (remaining : Nat) (accs : List Account) (cur : Nat) (isFirst : Bool),
      (∀ a ∈ accs, ∃ u, a.rateLimitedUntil = some u ∧ env.now < u) →
      accs ≠ [] →
      (fr = false → isFirst = true → cur < accs.length) →
      ∃ cur2, rotLoop env fr remaining accs cur isFirst = .ok (accs, cur2, none) := by
  intro remaining
  induction remaining with
  | zero => intro accs cur isFirst _ _ _; exact ⟨cur, rfl⟩
  | succ n ih =>
    intro accs cur isFirst hlim hne hcur
    have hlen : 0 < accs.length := List.length_pos.mpr hne
    have hlt : (if fr || !isFirst then (cur + 1) % accs.length else cur) < accs.length := by
      by_cases hb : (fr || !isFirst) = true
      · rw [if_pos hb]; exact Nat.mod_lt _ hlen
      · have hfi : fr = false ∧ isFirst = true := by
          rcases fr <;> rcases isFirst <;> simp_all
        rw [if_neg hb]; exact hcur hfi.1 hfi.2
    obtain ⟨u, hu, hnu⟩ := hlim _ (List.getElem_mem hlt)
    obtain ⟨cur2, hrec⟩ := ih accs
      (if fr || !isFirst then (cur + 1) % accs.length else cur) false hlim hne
      (by intro h1 h2; cases h2)
    refine ⟨cur2, ?_⟩
    simp only [rotLoop, List.getElem?_eq_getElem hlt, hu, Option.any_some]
    rw [if_pos (by simpa using hnu)]
    exact hrec

theorem scanMinWait_mem (now : Nat) :
    ∀ (l : List Account) (b : Account) (mw : Option Nat),
      (scanMinWait now l b mw).1 ∈ l ∨ (scanMinWait now l b mw).1 = b := by
  intro l
  induction l with
  | nil => intro b mw; right; rfl
  | cons a rest ih =>
    intro b mw
    by_cases h0 : (a.rateLimitedUntil.getD 0 == 0) = true
    · left
      simp only [scanMinWait, if_pos h0]
      exact List.mem_cons_self a rest
    · rcases mw with _ | m
      · simp only [scanMinWait, if_neg h0]
        rcases ih a (some (a.rateLimitedUntil.getD 0 - now)) with h | h
        · left; exact List.mem_cons_of_mem a h
        · left; rw [h]; exact List.mem_cons_self a rest
      · simp only [scanMinWait, if_neg h0]
        by_cases hc : a.rateLimitedUntil.getD 0 - now < m
        · rw [if_pos hc]
          rcases ih a (some (a.rateLimitedUntil.getD 0 - now)) with h | h
          · left; exact List.mem_cons_of_mem a h
          · left; rw [h]; exact List.mem_cons_self a rest
        · rw [if_neg hc]
          rcases ih b (some m) with h | h
          · left; exact List.mem_cons_of_mem a h
          · right; exact h

theorem scanMinWait_some (now : Nat) :
    ∀ (l : List Account) (b : Account) (mw : Option Nat),
      (mw = none → l ≠ []) →
      ∃ m2, (scanMinWait now l b mw).2 = some m2 := by
  intro l
  induction l with
  | nil =>
    intro b mw h
    rcases mw with _ | m
    · exact absurd rfl (h rfl)
    · exact ⟨m, rfl⟩
  | cons a rest ih =>
    intro b mw _
    by_cases h0 : (a.rateLimitedUntil.getD 0 == 0) = true
    · exact ⟨0, by simp only [scanMinWait, if_pos h0]⟩
    · rcases mw with _ | m
      · simp only [scanMinWait, if_neg h0]
        exact ih a _ (by intro h; cases h)
      · simp only [scanMinWait, if_neg h0]
        by_cases hc : a.rateLimitedUntil.getD 0 - now < m
        · rw [if_pos hc]
          exact ih a _ (by intro h; cases h)
        · rw [if_neg hc]
          exact ih b _ (by intro h; cases h)

theorem scanMinWait_gt (now bound : Nat) :
    ∀ (l : List Account) (b : Account) (mw : Option Nat),
      (∀ a ∈ l, ∃ u, a.rateLimitedUntil = some u ∧ now + bound < u) →
      (∀ m, mw = some m → bound < m) →
      ∀ m2, (scanMinWait now l b mw).2 = some m2 → bound < m2 := by
  intro l
  induction l with
  | nil =>
    intro b mw _ hmw m2 h2
    exact hmw m2 h2
  | cons a rest ih =>
    intro b mw hlim hmw m2 h2
    obtain ⟨u, hu, hnu⟩ := hlim a (List.mem_cons_self a rest)
    have hrest : ∀ x ∈ rest, ∃ u, x.rateLimitedUntil = some u ∧ now + bound < u :=
      fun x hx => hlim x (List.mem_cons_of_mem a hx)
    have h0 : ¬(a.rateLimitedUntil.getD 0 == 0) = true := by rw [hu]; simp; omega
    have hwgt : ∀ m3, some (a.rateLimitedUntil.getD 0 - now) = some m3 → bound < m3 := by
      intro m3 hm3
      rw [hu] at hm3
      simp at hm3
      omega
    rcases mw with _ | m
    · simp only [scanMinWait, if_neg h0] at h2
      exact ih a _ hrest hwgt m2 h2
    · simp only [scanMinWait, if_neg h0] at h2
      by_cases hcmp : a.rateLimitedUntil.getD 0 - now < m
      · rw [if_pos hcmp] at h2
        exact ih a _ hrest hwgt m2 h2
      · rw [if_neg hcmp] at h2
        exact ih b _ hrest (fun m3 hm3 => hmw m3 hm3) m2 h2

theorem quotaLoop_none (env : Env) :
    ∀ (l : List Account),
      (∀ a ∈ l, ∀ res, env.probe a.accessToken = some res →
        ∀ mq ∈ res.models, mq.2.remainingFraction.getD 0 ≤ 0) →
      (quotaLoop env l).2 = none := by
  intro l
  induction l with
  | nil => intro _; rfl
  | cons a rest ih =>
    intro h
    have hrest := fun x hx => h x (List.mem_cons_of_mem a hx)
    unfold quotaLoop
    rcases hp : env.probe a.accessToken with _ | res
    · simpa using ih hrest
    · have hq := h a (List.mem_cons_self a rest) res hp
      have hany : (res.models.any fun m => decide (0 < m.2.remainingFraction.getD 0)) = false := by
        rw [List.any_eq_false]
        intro mq hmq
        simpa using not_lt.mpr (hq mq hmq)
      simp only [hany, Bool.false_eq_true, if_false]
      simpa using ih hrest

theorem allLimited_none (env : Env) (st : MgrSt)
    (hne : st.accounts ≠ [])
    (hlim : ∀ a ∈ st.accounts, ∃ u, a.rateLimitedUntil = some u ∧ env.now + 2000 < u)
    (hq : ∀ a ∈ st.accounts, ∀ res, env.probe a.accessToken = some res →
      ∀ mq ∈ res.models, mq.2.remainingFraction.getD 0 ≤ 0) :
    allLimited env st = .ok ({ st with accounts := (quotaLoop env st.accounts).1 }, none) := by
  obtain ⟨m2, hm2⟩ :=
    scanMinWait_some env.now st.accounts (st.accounts.head?.getD default) none
      (fun _ => hne)
  have hgt : 2000 < m2 :=
    scanMinWait_gt env.now 2000 st.accounts (st.accounts.head?.getD default) none hlim
      (by intro m hm; cases hm) m2 hm2
  unfold allLimited
  simp only [hm2]
  rw [if_neg (by omega), quotaLoop_none env st.accounts hq]

/-- C5 (amended): provided the rotation cursor is in range
(`currentIndex < accounts.length`, an invariant a stale cursor left by
account removal can violate), whenever every account is rate-limited more
than 2000 ms past `now` and the quota probe reports no account with a model
of positive remaining fraction, `getNextAvailableAccount` returns null
(no exception, no arbitrary account). -/
theorem all_exhausted_returns_null
    (env : Env) (st : MgrSt) (forceRotate : Bool)
    (hne : st.accounts ≠ [])
    (hcur : st.currentIndex < st.accounts.length)
    (hlim : ∀ a ∈ st.accounts, ∃ u, a.rateLimitedUntil = some u ∧ env.now + 2000 < u)
    (hq : ∀ a ∈ st.accounts, ∀ res, env.probe a.accessToken = some res →
      ∀ mq ∈ res.models, mq.2.remainingFraction.getD 0 ≤ 0) :
    (getNextAvailableAccount env st forceRotate).map Prod.snd = .ok none := by
  have hlime : ∀ a ∈ st.accounts, ∃ u, a.rateLimitedUntil = some u ∧ env.now < u :=
    fun a ha => by obtain ⟨u, hu, h⟩ := hlim a ha; exact ⟨u, hu, by omega⟩
  have hsticky : (if forceRotate then none else stickyReuse env st) = none := by
    rcases forceRotate
    · simpa using stickyReuse_none_of_all_limited env st hlime
    · rfl
  obtain ⟨cur2, hrot⟩ := rotLoop_all_limited env forceRotate st.accounts.length
    st.accounts st.currentIndex true hlime hne (fun _ _ => hcur)
  unfold getNextAvailableAccount
  rw [if_neg (by simp [List.isEmpty_iff, hne])]
  rw [hsticky]
  show (rotateScan env st forceRotate).map Prod.snd = Except.ok none
  unfold rotateScan
  rw [hrot]
  show (allLimited env
      { st with accounts := st.accounts, currentIndex := cur2 }).map Prod.snd =
    Except.ok none
  rw [allLimited_none env { st with accounts := st.accounts, currentIndex := cur2 }
    hne hlim hq]
  rfl

/-- Witness for C5's amended theorem: two accounts locked until epoch
999000 at `now = 1000`, cursor 0, probe reporting zero remaining fraction:
selection returns null. -/
theorem all_exhausted_returns_null_witness :
    (getNextAvailableAccount
        ⟨1000, 1001, 1600, fun _ => none, fun _ => none, "mock",
          fun _ => some ⟨[("m", ⟨some 0, some 5000⟩)], none⟩⟩
        ⟨[⟨"a", "a@x", "ta", "r", 0, some "pa", some 999000, 1⟩,
          ⟨"b", "b@x", "tb", "r", 0, some "pb", some 999000, 1⟩], 0, none⟩
        false).map Prod.snd = .ok none :=
  all_exhausted_returns_null _ _ false (by decide) (by decide)
    (by
      intro a ha
      simp only [List.mem_cons, List.not_mem_nil, or_false] at ha
      rcases ha with rfl | rfl
      · exact ⟨999000, rfl, by norm_num⟩
      · exact ⟨999000, rfl, by norm_num⟩)
    (by
      intro a ha res hres mq hmq
      injection hres with h
      subst h
      simp only [List.mem_cons, List.not_mem_nil, or_false] at hmq
      subst hmq
      norm_num)

/-- C5 counterexample: the same all-exhausted, probe-says-no-quota situation
with a stale rotation cursor (index 2, two accounts — the state left behind
when an account is removed after the cursor advanced): the selection reads
`accountList[2]`, which is `undefined`, and throws a `TypeError` instead of
returning null. -/
theorem all_exhausted_raises_cex :
    getNextAvailableAccount
        ⟨1000, 1001, 1600, fun _ => none, fun _ => none, "mock",
          fun _ => some ⟨[("m", ⟨some 0, some 5000⟩)], none⟩⟩
        ⟨[⟨"a", "a@x", "ta", "r", 0, some "pa", some 999000, 1⟩,
          ⟨"b", "b@x", "tb", "r", 0, some "pb", some 999000, 1⟩], 2, none⟩ false =
      .error () := by
  rfl

theorem scanMinWait_le (now bound : Nat) :
    ∀ (l : List Account) (b : Account) (mw : Option Nat),
      ((∃ a ∈ l, ∃ u, a.rateLimitedUntil = some u ∧ u - now ≤ bound) ∨
        (∃ m, mw = some m ∧ m ≤ bound)) →
      ∃ m2, (scanMinWait now l b mw).2 = some m2 ∧ m2 ≤ bound := by
  intro l
  induction l with
  | nil =>
    intro b mw h
    rcases h with ⟨a, ha, _⟩ | ⟨m, hm, hmb⟩
    · exact absurd ha (List.not_mem_nil a)
    · exact ⟨m, by subst hm; rfl, hmb⟩
  | cons a rest ih =>
    intro b mw h
    by_cases h0 : (a.rateLimitedUntil.getD 0 == 0) = true
    · exact ⟨0, by simp only [scanMinWait, if_pos h0], Nat.zero_le bound⟩
    · rcases mw with _ | m
      · simp only [scanMinWait, if_neg h0]
        apply ih
        rcases h with ⟨x, hx, u, hu, hub⟩ | ⟨m, hm, _⟩
        · rcases List.mem_cons.mp hx with rfl | hx2
          · right
            exact ⟨x.rateLimitedUntil.getD 0 - now, rfl, by rw [hu]; simpa using hub⟩
          · exact Or.inl ⟨x, hx2, u, hu, hub⟩
        · cases hm
      · simp only [scanMinWait, if_neg h0]
        by_cases hc : a.rateLimitedUntil.getD 0 - now < m
        · rw [if_pos hc]
          apply ih
          rcases h with ⟨x, hx, u, hu, hub⟩ | ⟨m3, hm3, hm3b⟩
          · rcases List.mem_cons.mp hx with rfl | hx2
            · right
              exact ⟨x.rateLimitedUntil.getD 0 - now, rfl, by rw [hu]; simpa using hub⟩
            · exact Or.inl ⟨x, hx2, u, hu, hub⟩
          · right
            refine ⟨a.rateLimitedUntil.getD 0 - now, rfl, ?_⟩
            cases hm3
            omega
        · rw [if_neg hc]
          apply ih
          rcases h with ⟨x, hx, u, hu, hub⟩ | ⟨m3, hm3, hm3b⟩
          · rcases List.mem_cons.mp hx with rfl | hx2
            · right
              refine ⟨m, rfl, ?_⟩
              have hgd : x.rateLimitedUntil.getD 0 = u := by rw [hu]; rfl
              omega
            · exact Or.inl ⟨x, hx2, u, hu, hub⟩
          · right
            cases hm3
            exact ⟨m, rfl, hm3b⟩

/-- C6 (amended): provided the rotation cursor is in range (the same stale
cursor caveat as the all-exhausted fallback), whenever every account in a
non-empty pool is rate-limited, the minimum remaining wait is at most
2000 ms, and every account is still rate-limited at the post-wait recheck,
`getNextAvailableAccount` clears `rateLimitedUntil` and
`consecutiveFailures` on every account in one pass and returns the
minimum-wait, previously-exhausted account — never null in this branch. -/
theorem optimistic_reset_clears_all
    (env : Env) (st : MgrSt) (forceRotate : Bool)
    (hne : st.accounts ≠ [])
    (hcur : st.currentIndex < st.accounts.length)
    (hlim : ∀ a ∈ st.accounts, ∃ u, a.rateLimitedUntil = some u ∧ env.now < u)
    (hmin : ∃ a ∈ st.accounts, ∃ u, a.rateLimitedUntil = some u ∧ u ≤ env.now + 2000)
    (hstill : ∀ a ∈ st.accounts, ∃ u, a.rateLimitedUntil = some u ∧ env.recheckNow < u) :
    (∃ cur2,
      getNextAvailableAccount env st forceRotate =
        .ok (⟨st.accounts.map fun a =>
                { a with rateLimitedUntil := none, consecutiveFailures := 0 },
              cur2, st.lastUsedAccount⟩,
             some ⟨(scanMinWait env.now st.accounts
                      (st.accounts.head?.getD default) none).1.accessToken,
                   projOrUnknown (scanMinWait env.now st.accounts
                      (st.accounts.head?.getD default) none).1.projectId,
                   (scanMinWait env.now st.accounts
                      (st.accounts.head?.getD default) none).1.email,
                   (scanMinWait env.now st.accounts
                      (st.accounts.head?.getD default) none).1.id⟩)) ∧
    (scanMinWait env.now st.accounts (st.accounts.head?.getD default) none).1 ∈
      st.accounts ∧
    (scanMinWait env.now st.accounts (st.accounts.head?.getD default) none).1.rateLimitedUntil
      ≠ none := by
  have hmem : (scanMinWait env.now st.accounts
      (st.accounts.head?.getD default) none).1 ∈ st.accounts := by
    rcases scanMinWait_mem env.now st.accounts (st.accounts.head?.getD default) none with
      h | h
    · exact h
    · rw [h]
      rcases hacc : st.accounts with _ | ⟨a0, rest⟩
      · exact absurd hacc hne
      · simp
  have hsticky : (if forceRotate then none else stickyReuse env st) = none := by
    rcases forceRotate
    · simpa using stickyReuse_none_of_all_limited env st hlim
    · rfl
  obtain ⟨cur2, hrot⟩ := rotLoop_all_limited env forceRotate st.accounts.length
    st.accounts st.currentIndex true hlim hne (fun _ _ => hcur)
  obtain ⟨m2, hm2, hm2le⟩ :=
    scanMinWait_le env.now 2000 st.accounts (st.accounts.head?.getD default) none
      (Or.inl (by
        obtain ⟨a, ha, u, hu, hub⟩ := hmin
        exact ⟨a, ha, u, hu, by omega⟩))
  have hfind : st.accounts.find?
      (fun a => a.rateLimitedUntil.all (· ≤ env.recheckNow)) = none := by
    rw [List.find?_eq_none]
    intro a ha
    obtain ⟨u, hu, hru⟩ := hstill a ha
    simp [hu]
    omega
  refine ⟨⟨cur2, ?_⟩, hmem, ?_⟩
  · unfold getNextAvailableAccount
    rw [if_neg (by simp [List.isEmpty_iff, hne])]
    rw [hsticky]
    show rotateScan env st forceRotate = _
    unfold rotateScan
    rw [hrot]
    show allLimited env { st with accounts := st.accounts, currentIndex := cur2 } = _
    unfold allLimited
    simp only [hm2]
    rw [if_pos hm2le, hfind]
  · obtain ⟨u, hu, _⟩ := hlim _ hmem
    rw [hu]
    simp

/-- Witness for C6's amended theorem: one account locked until epoch 2500 at
`now = 1000` (wait 1500 ms ≤ 2000) and still locked at the recheck reading
1600: the optimistic reset clears it and returns it. -/
theorem optimistic_reset_clears_all_witness :
    (∃ cur2,
      getNextAvailableAccount
          ⟨1000, 1001, 1600, fun _ => none, fun _ => none, "mock", fun _ => none⟩
          ⟨[⟨"a", "a@x", "ta", "r", 0, some "pa", some 2500, 1⟩], 0, none⟩ false =
        .ok (⟨[⟨"a", "a@x", "ta", "r", 0, some "pa", none, 0⟩], cur2, none⟩,
             some ⟨"ta", "pa", "a@x", "a"⟩)) ∧
    (⟨"a", "a@x", "ta", "r", 0, some "pa", some 2500, 1⟩ : Account) ∈
      [(⟨"a", "a@x", "ta", "r", 0, some "pa", some 2500, 1⟩ : Account)] ∧
    (some 2500 : Option Nat) ≠ none :=
  optimistic_reset_clears_all
    ⟨1000, 1001, 1600, fun _ => none, fun _ => none, "mock", fun _ => none⟩
    ⟨[⟨"a", "a@x", "ta", "r", 0, some "pa", some 2500, 1⟩], 0, none⟩ false
    (by decide) (by decide)
    (by
      intro a ha
      simp only [List.mem_cons, List.not_mem_nil, or_false] at ha
      subst ha
      exact ⟨2500, rfl, by norm_num⟩)
    ⟨_, List.mem_cons_self _ _, 2500, rfl, by norm_num⟩
    (by
      intro a ha
      simp only [List.mem_cons, List.not_mem_nil, or_false] at ha
      subst ha
      exact ⟨2500, rfl, by norm_num⟩)

/-- C6 counterexample: the same short-wait, still-locked situation with a
stale rotation cursor (index 1, one account): the selection reads
`accountList[1]` = `undefined` and throws instead of performing the
optimistic reset and returning an account. -/
theorem optimistic_reset_raises_cex :
    getNextAvailableAccount
        ⟨1000, 1001, 1600, fun _ => none, fun _ => none, "mock", fun _ => none⟩
        ⟨[⟨"a", "a@x", "ta", "r", 0, some "pa", some 2500, 1⟩], 1, none⟩ false =
      .error () := by
  rfl

theorem allLimited_lastUsed (env : Env) (st : MgrSt) (out : MgrSt × Option Cred)
    (h : allLimited env st = .ok out) :
    out.1.lastUsedAccount = st.lastUsedAccount := by
  unfold allLimited at h
  rcases hm : (scanMinWait env.now st.accounts (st.accounts.head?.getD default) none).2
      with _ | m <;> rw [hm] at h
  · injection h with h2
    rw [← h2]
  · dsimp only at h
    by_cases hle : m ≤ 2000
    · rw [if_pos hle] at h
      rcases hf : st.accounts.find?
          (fun a => a.rateLimitedUntil.all (· ≤ env.recheckNow)) with _ | refreshed <;>
        rw [hf] at h <;> injection h with h2 <;> rw [← h2]
    · rw [if_neg hle] at h
      injection h with h2
      rw [← h2]

/-- C10: the 60-second sticky window's bookkeeping is rotation-only —
(1) a selection served through the sticky-window reuse path returns with
`lastUsedAccount` unchanged, (2) once the stored timestamp is 60 s or older
the reuse path yields nothing (the manager rotates even if the reused
account is healthy), and (3) any call that changes `lastUsedAccount` does so
by recording the rotation-scan-selected account id with the fresh selection
clock reading. -/
theorem lastUsedAccount_rotation_only :
    (∀ (env : Env) (st : MgrSt) (out : MgrSt × Cred),
      stickyReuse env st = some out → out.1.lastUsedAccount = st.lastUsedAccount) ∧
    (∀ (env : Env) (st : MgrSt) (aid : String) (ts : Nat),
      st.lastUsedAccount = some (aid, ts) → (ts : Int) + 60000 ≤ (env.now : Int) →
      stickyReuse env st = none) ∧
    (∀ (env : Env) (st : MgrSt) (forceRotate : Bool) (out : MgrSt × Option Cred),
      getNextAvailableAccount env st forceRotate = .ok out →
      out.1.lastUsedAccount = st.lastUsedAccount ∨
      ∃ c, out.2 = some c ∧ out.1.lastUsedAccount = some (c.accountId, env.selectNow)) := by
  have part1 : ∀ (env : Env) (st : MgrSt) (out : MgrSt × Cred),
      stickyReuse env st = some out → out.1.lastUsedAccount = st.lastUsedAccount := by
    intro env st out h
    obtain ⟨accs, ci, lu⟩ := st
    unfold stickyReuse at h
    rcases lu with _ | ⟨aid, ts⟩
    · cases h
    · dsimp only at h
      split at h
      · rcases hfa : findAccount accs aid with _ | la <;> rw [hfa] at h
        · cases h
        · dsimp only at h
          split at h
          · injection h with h2
            rw [← h2]
          · cases h
      · cases h
  refine ⟨part1, ?_, ?_⟩
  · intro env st aid ts hlu hts
    unfold stickyReuse
    rw [hlu]
    dsimp only
    rw [if_neg (by omega)]
  · intro env st fr out h
    unfold getNextAvailableAccount at h
    by_cases he : st.accounts.isEmpty = true
    · rw [if_pos he] at h
      injection h with h2
      rw [← h2]
      left
      rfl
    · rw [if_neg he] at h
      rcases hs : (if fr then none else stickyReuse env st) with _ | p <;> rw [hs] at h
      · dsimp only at h
        unfold rotateScan at h
        rcases hr : rotLoop env fr st.accounts.length st.accounts st.currentIndex true
            with _ | ⟨accs1, cur1, oa⟩ <;> rw [hr] at h
        · cases h
        · rcases oa with _ | a
          · dsimp only at h
            left
            exact allLimited_lastUsed env
              { st with accounts := accs1, currentIndex := cur1 } out h
          · dsimp only at h
            injection h with h2
            right
            refine ⟨⟨(ensureProjectId env a).2.accessToken, (ensureProjectId env a).1,
              (ensureProjectId env a).2.email, (ensureProjectId env a).2.id⟩, ?_, ?_⟩
            · rw [← h2]
            · rw [← h2]
              simp [ensureProjectId_id]
      · obtain ⟨st1, cred⟩ := p
        dsimp only at h
        injection h with h2
        have hfr : stickyReuse env st = some (st1, cred) := by
          rcases fr with _ | _
          · simpa using hs
          · cases hs
        left
        rw [← h2]
        exact part1 env st (st1, cred) hfr

/-- Witness for C10: a sticky record stamped at 0 is not reused at
`now = 60000` (exactly the window's edge) even though the account is
healthy. -/
theorem lastUsedAccount_rotation_only_witness :
    stickyReuse ⟨60000, 60001, 60500, fun _ => none, fun _ => none, "mock", fun _ => none⟩
        ⟨[⟨"a", "a@x", "ta", "r", 0, some "pa", none, 0⟩], 0, some ("a", 0)⟩ = none :=
  lastUsedAccount_rotation_only.2.1 _ _ "a" 0 rfl (by norm_num)
